import Mathlib

/-!
Shallow embedding of the document-chat assistant's corpus-management service
(file app/services/vectorstore.py) and of its RAG pipeline
(file app/services/rag_pipeline.py).

Modelling conventions:
* A langchain Document is `Doc`: page content plus a string-keyed metadata
  dictionary whose values are strings or integers (the kinds the loaders
  produce), kept as an association list in insertion order with unique keys.
* The Python attribute self.vectorstore (a FAISS object) is modelled by a heap
  of store objects (`heap : Nat → List Doc`) together with
  `current : Option Nat`, because the Python code aliases store objects:
  add_documents mutates the current object in place, delete_document rebuilds
  a fresh object, and a retriever keeps a reference to the object it was
  created from.
* External steps that can raise (FAISS insert and rebuild, disk writes,
  directory removal) are driven by Boolean oracles (`AddEnv`, `DelEnv`):
  true means the step succeeds, false means it raises, with no partial
  effect (saves are modelled as atomic).  FAISS construction or insertion on
  an empty batch always raises (there is no embedding vector to size the
  index from), so an empty batch is modelled as a failing insert regardless
  of the oracle.
* Similarity ranking is opaque: search-like operations are parameterised by
  a ranking function `rank : List Doc → String → Nat → List Doc` applied to
  the searched store object's contents.
* The persisted artefacts (the FAISS index directory and
  documents_metadata.json) are the `savedStore` and `savedMetadata` fields.
-/

/-- A metadata value: the loaders produce strings (for example the source
path) and integers (for example a page number). -/
inductive MetaVal where
  | str : String → MetaVal
  | int : Int → MetaVal
deriving DecidableEq

/-- A langchain Document: text plus a metadata dictionary. -/
structure Doc where
  page_content : String
  metadata : List (String × MetaVal)
deriving DecidableEq

/-- Python dict assignment d[k] = v: overwrite the existing entry for k,
keeping its position, or append a fresh entry at the end. -/
def setPairs : List (String × MetaVal) → String → MetaVal → List (String × MetaVal)
  | [], k, v => [(k, v)]
  | p :: rest, k, v => if p.1 = k then (k, v) :: rest else p :: setPairs rest k v

/-- Python doc.metadata[k] = v. -/
def Doc.setMeta (d : Doc) (k : String) (v : MetaVal) : Doc :=
  { d with metadata := setPairs d.metadata k v }

/-- Python doc.metadata.get(k). -/
def Doc.getMeta (d : Doc) (k : String) : Option MetaVal :=
  d.metadata.lookup k

/-- Success oracles for the external steps of add_documents: the FAISS
insert (from_documents or FAISS.add_documents), the index save, and the
metadata save. -/
structure AddEnv where
  insertOk : Bool
  saveStoreOk : Bool
  saveMetaOk : Bool
deriving DecidableEq

/-- Success oracles for the external steps of delete_document: the FAISS
rebuild (from_documents), the index save (or, in the empty branch, the
index-directory removal), and the metadata save. -/
structure DelEnv where
  rebuildOk : Bool
  saveStoreOk : Bool
  saveMetaOk : Bool
deriving DecidableEq

/-- The state of a VectorStoreService instance.  `documents_metadata` maps a
document name to its recorded chunk count (the Python value is the dict
with keys chunks and filename; only the count is data, the filename key
merely repeats the dict key). -/
structure ServiceState where
  heap : Nat → List Doc
  nextId : Nat
  current : Option Nat
  documents_metadata : List (String × Nat)
  savedStore : Option (List Doc)
  savedMetadata : List (String × Nat)

/-- Fresh service with no persisted state on disk (the empty corpus). -/
def initState : ServiceState :=
  { heap := fun _ => [], nextId := 0, current := none,
    documents_metadata := [], savedStore := none, savedMetadata := [] }

/-- Write one cell of the store heap. -/
def updateHeap (h : Nat → List Doc) (i : Nat) (v : List Doc) : Nat → List Doc :=
  fun j => if j = i then v else h j

/-- The fragments held by the current vector store (empty when
self.vectorstore is None). -/
def contents (s : ServiceState) : List Doc :=
  match s.current with
  | none => []
  | some i => s.heap i

/-- Metadata update of add_documents: accumulate onto an existing record or
create a new one. -/
def recordIngest : List (String × Nat) → String → Nat → List (String × Nat)
  | [], name, n => [(name, n)]
  | p :: rest, name, n =>
      if p.1 = name then (p.1, p.2 + n) :: rest else p :: recordIngest rest name n

/-- Python del dict[name]: remove the (unique) entry keyed name. -/
def removeKey : List (String × Nat) → String → List (String × Nat)
  | [], _ => []
  | p :: rest, name => if p.1 = name then rest else p :: removeKey rest name

/-- The tagging loop of add_documents: set metadata filename on every
document of the caller's list, in place. -/
def tagDocs (docs : List Doc) (filename : String) : List Doc :=
  docs.map fun d => d.setMeta "filename" (MetaVal.str filename)

/-- Result of add_documents: the caller's (mutated) document list, the
return value (ok n, or error for a re-raised exception), and the service
state after the call. -/
structure AddResult where
  docsAfter : List Doc
  result : Except Unit Nat
  state : ServiceState

/-- VectorStoreService.add_documents.  Tags the documents, inserts them into
the store (creating it when absent), updates the metadata ledger, then saves
the store and the metadata; an insert or store-save failure re-raises, a
metadata-save failure is swallowed inside _save_metadata. -/
def add_documents (s : ServiceState) (documents : List Doc) (filename : String)
    (env : AddEnv) : AddResult :=
  let tagged := tagDocs documents filename
  if documents.isEmpty || !env.insertOk then
    { docsAfter := tagged, result := Except.error (), state := s }
  else
    let s1 : ServiceState :=
      match s.current with
      | none =>
          { s with heap := updateHeap s.heap s.nextId tagged,
                   current := some s.nextId, nextId := s.nextId + 1 }
      | some i => { s with heap := updateHeap s.heap i (s.heap i ++ tagged) }
    let s2 := { s1 with
      documents_metadata := recordIngest s1.documents_metadata filename documents.length }
    if !env.saveStoreOk then
      { docsAfter := tagged, result := Except.error (), state := s2 }
    else
      let s3 := { s2 with savedStore := some (contents s2) }
      let s4 := if env.saveMetaOk then { s3 with savedMetadata := s3.documents_metadata } else s3
      { docsAfter := tagged, result := Except.ok documents.length, state := s4 }

/-- The partition loop of delete_document: the fragments whose filename tag
differs from the given name (Python: doc.metadata.get('filename') != filename). -/
def keepOthers (filename : String) (l : List Doc) : List Doc :=
  l.filter fun d => d.getMeta "filename" != some (MetaVal.str filename)

/-- VectorStoreService.delete_document.  Returns false on an unknown name or
an absent store; otherwise removes the ledger entry, rebuilds the store from
the fragments whose filename tag differs from the given name (or clears the
store and deletes the persisted index when none survive), and saves; any
exception after the checks is caught and reported as false. -/
def delete_document (s : ServiceState) (filename : String) (env : DelEnv) :
    Bool × ServiceState :=
  match s.documents_metadata.lookup filename with
  | none => (false, s)
  | some _ =>
    match s.current with
    | none => (false, s)
    | some i =>
      let docsToKeep := keepOthers filename (s.heap i)
      let s1 := { s with documents_metadata := removeKey s.documents_metadata filename }
      if !docsToKeep.isEmpty then
        if !env.rebuildOk then (false, s1)
        else
          let s2 := { s1 with heap := updateHeap s1.heap s1.nextId docsToKeep,
                              current := some s1.nextId, nextId := s1.nextId + 1 }
          if !env.saveStoreOk then (false, s2)
          else
            let s3 := { s2 with savedStore := some docsToKeep }
            (true, if env.saveMetaOk then { s3 with savedMetadata := s3.documents_metadata } else s3)
      else
        let s2 := { s1 with current := none }
        match s2.savedStore with
        | some _ =>
          if !env.saveStoreOk then (false, s2)
          else
            let s3 := { s2 with savedStore := none }
            (true, if env.saveMetaOk then { s3 with savedMetadata := s3.documents_metadata } else s3)
        | none =>
          (true, if env.saveMetaOk then { s2 with savedMetadata := s2.documents_metadata } else s2)

/-- VectorStoreService.is_ready. -/
def is_ready (s : ServiceState) : Bool :=
  s.current.isSome

/-- VectorStoreService.get_document_count: index.ntotal is the number of
stored fragments, 0 when the store is absent. -/
def get_document_count (s : ServiceState) : Nat :=
  (contents s).length

/-- The dictionary returned by VectorStoreService.get_stats. -/
structure Stats where
  total_chunks : Nat
  total_documents : Nat
  documents : List (String × Nat)
deriving DecidableEq

/-- VectorStoreService.get_stats. -/
def get_stats (s : ServiceState) : Stats :=
  { total_chunks := get_document_count s,
    total_documents := s.documents_metadata.length,
    documents := s.documents_metadata }

/-- VectorStoreService.list_documents: one (filename, chunks) pair per
ledger record. -/
def list_documents (s : ServiceState) : List (String × Nat) :=
  s.documents_metadata

/-- VectorStoreService.similarity_search: empty when the store is absent,
otherwise the opaque FAISS ranking applied to the current store's
contents. -/
def similarity_search (rank : List Doc → String → Nat → List Doc)
    (s : ServiceState) (query : String) (k : Nat) : List Doc :=
  match s.current with
  | none => []
  | some i => rank (s.heap i) query k

/-- A retriever: a reference to the store object it was created from plus
the bound k. -/
structure Retriever where
  storeId : Nat
  k : Nat
deriving DecidableEq

/-- VectorStoreService.get_retriever. -/
def get_retriever (s : ServiceState) (k : Nat) : Option Retriever :=
  match s.current with
  | none => none
  | some i => some { storeId := i, k := k }

/-- Invoking a retriever: FAISS ranking over the contents of the store
object the retriever was created from, as they are in the given state. -/
def Retriever.invoke (rank : List Doc → String → Nat → List Doc)
    (r : Retriever) (s : ServiceState) (query : String) : List Doc :=
  rank (s.heap r.storeId) query r.k

/-- One formatted source attribution, as built by RAGPipeline._format_sources. -/
structure SourceInfo where
  content : String
  source : MetaVal
  page : Option MetaVal
deriving DecidableEq

/-- RAGPipeline._format_sources, for one document. -/
def format_source (d : Doc) : SourceInfo :=
  { content :=
      if d.page_content.length > 500 then d.page_content.take 500 ++ "..."
      else d.page_content,
    source := (d.getMeta "source").getD (MetaVal.str "Unknown"),
    page := d.getMeta "page" }

/-- RAGPipeline._format_sources. -/
def format_sources (docs : List Doc) : List SourceInfo :=
  docs.map format_source

/-- The payload returned by RAGPipeline.query. -/
structure QueryOut where
  answer : String
  sources : List SourceInfo
  question : String
deriving DecidableEq

/-- The sentinel answer returned on an empty corpus. -/
def noDocsAnswer : String :=
  "No documents have been uploaded yet. Please upload documents first."

/-- RAGPipeline.query: the Boolean of the pair records whether the
generation (LLM) call was made.  The generation call itself is the opaque
function llm from the question and the retrieved documents. -/
def rag_query (rank : List Doc → String → Nat → List Doc)
    (llm : String → List Doc → String) (s : ServiceState)
    (question : String) (k : Nat) : QueryOut × Bool :=
  if !is_ready s then
    ({ answer := noDocsAnswer, sources := [], question := question }, false)
  else
    match get_retriever s k with
    | none =>
        ({ answer := "Vector store is not available.", sources := [], question := question },
         false)
    | some r =>
        let docs := Retriever.invoke rank r s question
        ({ answer := llm question docs, sources := format_sources docs, question := question },
         true)

/-- One corpus-mutating call, with its environment oracle. -/
inductive Op where
  | add : List Doc → String → AddEnv → Op
  | del : String → DelEnv → Op

/-- Apply one call to the service state. -/
def applyOp (s : ServiceState) : Op → ServiceState
  | Op.add docs name env => (add_documents s docs name env).state
  | Op.del name env => (delete_document s name env).2

/-- The state reached from the empty corpus by a sequence of calls. -/
def runOps (ops : List Op) : ServiceState :=
  ops.foldl applyOp initState

/-- Whether a fragment carries the filename tag of the given document name. -/
def isTagged (name : String) (d : Doc) : Bool :=
  d.getMeta "filename" == some (MetaVal.str name)

/-- Number of fragments tagged with the given document name. -/
def countTagged (name : String) (docs : List Doc) : Nat :=
  docs.countP (isTagged name)

/-- Sum of the recorded chunk counts of the ledger. -/
def sumLedger (m : List (String × Nat)) : Nat :=
  (m.map fun p => p.2).sum

/-- A call whose index rebuild did not fail (every add, and every delete
whose rebuild oracle is true). -/
def rebuildsOk : Op → Bool
  | Op.add _ _ _ => true
  | Op.del _ env => env.rebuildOk

/-- No delete call in the sequence failed during its index rebuild. -/
def noRebuildFailure (ops : List Op) : Bool :=
  ops.all rebuildsOk

/-! ### Dictionary lemmas -/

theorem lookup_isSome_of_mem_keys {α : Type} {m : List (String × α)} {k : String}
    (h : k ∈ m.map Prod.fst) : (m.lookup k).isSome := by
  induction m with
  | nil => simp at h
  | cons p rest ih =>
    obtain ⟨a, b⟩ := p
    by_cases hk : k = a
    · subst hk
      simp [List.lookup]
    · simp only [List.map_cons, List.mem_cons] at h
      rcases h with h | h
    
      · exact absurd h hk
      · simp only [List.lookup, show (k == a) = false from beq_eq_false_iff_ne.mpr hk]
        exact ih h

theorem lookup_eq_none_of_not_mem_keys {α : Type} {m : List (String × α)} {k : String}
    (h : k ∉ m.map Prod.fst) : m.lookup k = none := by
  cases he : m.lookup k with
  | none => rfl
  | some v =>
    exfalso
    apply h
    induction m with
    | nil => simp [List.lookup] at he
    | cons p rest ih =>
      obtain ⟨a, b⟩ := p
      by_cases hk : k = a
      · simp [hk]
      · simp only [List.lookup, show (k == a) = false from beq_eq_false_iff_ne.mpr hk] at he
        simp only [List.map_cons, List.mem_cons]
        exact Or.inr (ih (fun hc => h (List.mem_cons_of_mem _ hc)) he)

theorem lookup_setPairs_self (m : List (String × MetaVal)) (k : String) (v : MetaVal) :
    (setPairs m k v).lookup k = some v := by
  induction m with
  | nil => simp [setPairs, List.lookup]
  | cons p rest ih =>
    obtain ⟨a, b⟩ := p
    by_cases h : a = k
    · subst h
      simp [setPairs, List.lookup]
    · simp only [setPairs, if_neg h, List.lookup,
        show (k == a) = false from beq_eq_false_iff_ne.mpr (Ne.symm h), ih]

theorem lookup_setPairs_ne (m : List (String × MetaVal)) {k k' : String} (v : MetaVal)
    (h : k' ≠ k) : (setPairs m k v).lookup k' = m.lookup k' := by
  induction m with
  | nil =>
    simp [setPairs, List.lookup, show (k' == k) = false from beq_eq_false_iff_ne.mpr h]
  | cons p rest ih =>
    obtain ⟨a, b⟩ := p
    by_cases hp : a = k
    · subst hp
      simp [setPairs, List.lookup, show (k' == a) = false from beq_eq_false_iff_ne.mpr h]
    · simp only [setPairs, if_neg hp, List.lookup, ih]

theorem Doc.getMeta_setMeta_self (d : Doc) (k : String) (v : MetaVal) :
    (d.setMeta k v).getMeta k = some v :=
  lookup_setPairs_self d.metadata k v

theorem Doc.getMeta_setMeta_ne (d : Doc) {k k' : String} (v : MetaVal) (h : k' ≠ k) :
    (d.setMeta k v).getMeta k' = d.getMeta k' :=
  lookup_setPairs_ne d.metadata v h

theorem lookup_recordIngest_self (m : List (String × Nat)) (name : String) (n : Nat) :
    (recordIngest m name n).lookup name = some ((m.lookup name).getD 0 + n) := by
  induction m with
  | nil => simp [recordIngest, List.lookup]
  | cons p rest ih =>
    obtain ⟨a, b⟩ := p
    by_cases h : a = name
    · subst h
      simp [recordIngest, List.lookup]
    · simp only [recordIngest, if_neg h, List.lookup,
        show (name == a) = false from beq_eq_false_iff_ne.mpr (Ne.symm h), ih]

theorem lookup_recordIngest_ne (m : List (String × Nat)) {name name' : String} (n : Nat)
    (h : name' ≠ name) : (recordIngest m name n).lookup name' = m.lookup name' := by
  induction m with
  | nil =>
    simp [recordIngest, List.lookup,
      show (name' == name) = false from beq_eq_false_iff_ne.mpr h]
  | cons p rest ih =>
    obtain ⟨a, b⟩ := p
    by_cases hp : a = name
    · subst hp
      simp [recordIngest, List.lookup,
        show (name' == a) = false from beq_eq_false_iff_ne.mpr h]
    · simp only [recordIngest, if_neg hp, List.lookup, ih]

theorem sum_recordIngest (m : List (String × Nat)) (name : String) (n : Nat) :
    sumLedger (recordIngest m name n) = sumLedger m + n := by
  induction m with
  | nil => simp [recordIngest, sumLedger]
  | cons p rest ih =>
    obtain ⟨a, b⟩ := p
    by_cases h : a = name
    · simp [recordIngest, h, sumLedger]
      omega
    · simp only [recordIngest, if_neg h]
      simp only [sumLedger, List.map_cons, List.sum_cons] at ih ⊢
      omega

theorem keys_recordIngest (m : List (String × Nat)) (name : String) (n : Nat) :
    (recordIngest m name n).map Prod.fst
      = if (m.lookup name).isSome then m.map Prod.fst else m.map Prod.fst ++ [name] := by
  induction m with
  | nil => simp [recordIngest, List.lookup]
  | cons p rest ih =>
    obtain ⟨a, b⟩ := p
    by_cases h : a = name
    · subst h
      simp [recordIngest, List.lookup]
    · simp only [recordIngest, if_neg h, List.map_cons, List.lookup,
        show (name == a) = false from beq_eq_false_iff_ne.mpr (Ne.symm h), ih]
      by_cases hs : (rest.lookup name).isSome
      · simp [hs]
      · simp [hs]

theorem length_recordIngest_absent {m : List (String × Nat)} {name : String} (n : Nat)
    (h : m.lookup name = none) : (recordIngest m name n).length = m.length + 1 := by
  have := congrArg List.length (keys_recordIngest m name n)
  rw [h] at this
  simpa using this

theorem length_recordIngest_present {m : List (String × Nat)} {name : String} (n : Nat)
    (h : (m.lookup name).isSome) : (recordIngest m name n).length = m.length := by
  have := congrArg List.length (keys_recordIngest m name n)
  rw [if_pos h] at this
  simpa using this

theorem keys_recordIngest_nodup {m : List (String × Nat)} {name : String} (n : Nat)
    (h : (m.map Prod.fst).Nodup) :
    ((recordIngest m name n).map Prod.fst).Nodup := by
  rw [keys_recordIngest]
  by_cases hs : (m.lookup name).isSome
  · simpa [hs] using h
  · have hmem : name ∉ m.map Prod.fst := fun hc => hs (lookup_isSome_of_mem_keys hc)
    simp only [if_neg hs, List.nodup_append, List.nodup_singleton]
    exact ⟨h, trivial, by simpa [List.disjoint_singleton] using hmem⟩

theorem lookup_removeKey_ne {m : List (String × Nat)} {name name' : String}
    (h : name' ≠ name) : (removeKey m name).lookup name' = m.lookup name' := by
  induction m with
  | nil => rfl
  | cons p rest ih =>
    obtain ⟨a, b⟩ := p
    by_cases hp : a = name
    · subst hp
      simp [removeKey, List.lookup, show (name' == a) = false from beq_eq_false_iff_ne.mpr h]
    · simp only [removeKey, if_neg hp, List.lookup, ih]

theorem lookup_removeKey_self {m : List (String × Nat)} {name : String}
    (h : (m.map Prod.fst).Nodup) : (removeKey m name).lookup name = none := by
  induction m with
  | nil => rfl
  | cons p rest ih =>
    obtain ⟨a, b⟩ := p
    simp only [List.map_cons, List.nodup_cons] at h
    by_cases hp : a = name
    · simp only [removeKey, if_pos hp]
      exact lookup_eq_none_of_not_mem_keys (hp ▸ h.1)
    · simp only [removeKey, if_neg hp, List.lookup,
        show (name == a) = false from beq_eq_false_iff_ne.mpr (fun hc => hp hc.symm)]
      exact ih h.2

theorem sum_removeKey {m : List (String × Nat)} {name : String} {c : Nat}
    (h : m.lookup name = some c) : sumLedger (removeKey m name) + c = sumLedger m := by
  induction m with
  | nil => simp [List.lookup] at h
  | cons p rest ih =>
    obtain ⟨a, b⟩ := p
    by_cases hp : a = name
    · subst hp
      simp only [List.lookup, beq_self_eq_true] at h
      simp only [Option.some.injEq] at h
      simp [removeKey, sumLedger, h]
      omega
    · simp only [List.lookup,
        show (name == a) = false from beq_eq_false_iff_ne.mpr (fun hc => hp hc.symm)] at h
      simp only [removeKey, if_neg hp]
      simp only [sumLedger, List.map_cons, List.sum_cons] at ih ⊢
      have := ih h
      omega

theorem mem_keys_removeKey {m : List (String × Nat)} {name k : String}
    (h : k ∈ (removeKey m name).map Prod.fst) : k ∈ m.map Prod.fst := by
  induction m with
  | nil => simp [removeKey] at h
  | cons p rest ih =>
    by_cases hp : p.1 = name
    · simp only [removeKey, if_pos hp] at h
      simp [h]
    · simp only [removeKey, if_neg hp, List.map_cons, List.mem_cons] at h ⊢
      rcases h with h | h
      · exact Or.inl h
      · exact Or.inr (ih h)

theorem keys_removeKey_nodup {m : List (String × Nat)} {name : String}
    (h : (m.map Prod.fst).Nodup) : ((removeKey m name).map Prod.fst).Nodup := by
  induction m with
  | nil => simp [removeKey]
  | cons p rest ih =>
    simp only [List.map_cons, List.nodup_cons] at h
    by_cases hp : p.1 = name
    · simpa [removeKey, hp] using h.2
    · simp only [removeKey, if_neg hp, List.map_cons, List.nodup_cons]
      exact ⟨fun hc => h.1 (mem_keys_removeKey hc), ih h.2⟩

/-! ### Tagging and counting lemmas -/

theorem isTagged_tagDoc_self (d : Doc) (name : String) :
    isTagged name (d.setMeta "filename" (MetaVal.str name)) = true := by
  simp [isTagged, Doc.getMeta_setMeta_self]

theorem isTagged_tagDoc_ne (d : Doc) {m name : String} (h : m ≠ name) :
    isTagged m (d.setMeta "filename" (MetaVal.str name)) = false := by
  simp only [isTagged, Doc.getMeta_setMeta_self, beq_eq_false_iff_ne, Ne, Option.some.injEq,
    MetaVal.str.injEq]
  exact fun hc => h hc.symm

theorem countTagged_tagDocs_self (docs : List Doc) (name : String) :
    countTagged name (tagDocs docs name) = docs.length := by
  have hlen : (tagDocs docs name).length = docs.length := by simp [tagDocs]
  rw [countTagged, ← hlen]
  refine List.countP_eq_length.mpr ?_
  intro d hd
  rcases List.mem_map.mp hd with ⟨d0, _, rfl⟩
  exact isTagged_tagDoc_self d0 name

theorem countTagged_tagDocs_ne (docs : List Doc) {m name : String} (h : m ≠ name) :
    countTagged m (tagDocs docs name) = 0 := by
  refine List.countP_eq_zero.mpr ?_
  intro d hd
  rcases List.mem_map.mp hd with ⟨d0, _, rfl⟩
  simp [isTagged_tagDoc_ne d0 h]

theorem countTagged_append (name : String) (l1 l2 : List Doc) :
    countTagged name (l1 ++ l2) = countTagged name l1 + countTagged name l2 :=
  List.countP_append _ _ _

theorem keepOthers_eq_filter_not (f : String) (l : List Doc) :
    keepOthers f l = l.filter fun d => !(isTagged f d) := rfl

theorem countTagged_keepOthers_self (f : String) (l : List Doc) :
    countTagged f (keepOthers f l) = 0 := by
  rw [keepOthers_eq_filter_not, countTagged, List.countP_filter]
  refine List.countP_eq_zero.mpr ?_
  intro d _
  cases h : isTagged f d <;> simp [h]

theorem countTagged_keepOthers_ne {m f : String} (l : List Doc) (h : m ≠ f) :
    countTagged m (keepOthers f l) = countTagged m l := by
  rw [keepOthers_eq_filter_not, countTagged, List.countP_filter, countTagged]
  refine List.countP_congr ?_
  intro d _
  cases hm : isTagged m d
  · simp [hm]
  · have hf : isTagged f d = false := by
      have : d.getMeta "filename" = some (MetaVal.str m) := by
        simpa [isTagged] using hm
      simp only [isTagged, this, beq_eq_false_iff_ne, Ne, Option.some.injEq, MetaVal.str.injEq]
      exact fun hc => h hc
    simp [hm, hf]

theorem length_keepOthers (f : String) (l : List Doc) :
    (keepOthers f l).length + countTagged f l = l.length := by
  rw [keepOthers_eq_filter_not, ← List.countP_eq_length_filter, countTagged]
  induction l with
  | nil => simp
  | cons d tl ih =>
    simp only [List.countP_cons, List.length_cons]
    cases h : isTagged f d <;> simp [h] <;> omega

theorem countTagged_of_keepOthers_nil {f : String} {l : List Doc}
    (h : keepOthers f l = []) {m : String} (hm : m ≠ f) : countTagged m l = 0 := by
  refine List.countP_eq_zero.mpr ?_
  intro d hd
  have htag : isTagged f d = true := by
    rw [keepOthers_eq_filter_not] at h
    have := List.filter_eq_nil_iff.mp h d hd
    simpa using this
  have : d.getMeta "filename" = some (MetaVal.str f) := by simpa [isTagged] using htag
  simp only [isTagged, this, beq_iff_eq, Option.some.injEq, MetaVal.str.injEq]
  exact fun hc => hm hc.symm

theorem countTagged_eq_length_of_keepOthers_nil {f : String} {l : List Doc}
    (h : keepOthers f l = []) : countTagged f l = l.length := by
  have := length_keepOthers f l
  rw [h] at this
  simpa using this

/-! ### Characterisation of the two mutating operations -/

theorem add_documents_of_fail {s : ServiceState} {documents : List Doc}
    {filename : String} {env : AddEnv}
    (h : (documents.isEmpty || !env.insertOk) = true) :
    add_documents s documents filename env
      = { docsAfter := tagDocs documents filename, result := Except.error (), state := s } := by
  simp [add_documents, h]

theorem add_documents_docsAfter (s : ServiceState) (documents : List Doc)
    (filename : String) (env : AddEnv) :
    (add_documents s documents filename env).docsAfter = tagDocs documents filename := by
  by_cases hf : (documents.isEmpty || !env.insertOk) = true
  · simp [add_documents, hf]
  · rw [Bool.not_eq_true] at hf
    cases hc : s.current <;> cases hss : env.saveStoreOk <;> cases hsm : env.saveMetaOk <;>
      simp [add_documents, hf, hc, hss, hsm]

theorem add_documents_state_core (s : ServiceState) (documents : List Doc)
    (filename : String) (env : AddEnv)
    (h : (documents.isEmpty || !env.insertOk) = false) :
    (add_documents s documents filename env).state.documents_metadata
        = recordIngest s.documents_metadata filename documents.length
    ∧ contents (add_documents s documents filename env).state
        = contents s ++ tagDocs documents filename := by
  cases hc : s.current <;> cases hss : env.saveStoreOk <;> cases hsm : env.saveMetaOk <;>
    simp [add_documents, h, hc, hss, hsm, contents, updateHeap]

theorem add_documents_result_ok {s : ServiceState} {documents : List Doc}
    {filename : String} {env : AddEnv}
    (h : (documents.isEmpty || !env.insertOk) = false) (h2 : env.saveStoreOk = true) :
    (add_documents s documents filename env).result = Except.ok documents.length := by
  cases hc : s.current <;> cases hsm : env.saveMetaOk <;>
    simp [add_documents, h, h2, hc, hsm]

theorem delete_document_of_unknown {s : ServiceState} {filename : String} (env : DelEnv)
    (h : s.documents_metadata.lookup filename = none) :
    delete_document s filename env = (false, s) := by
  simp [delete_document, h]

theorem delete_document_of_noStore {s : ServiceState} {filename : String} (env : DelEnv)
    {c : Nat} (h : s.documents_metadata.lookup filename = some c)
    (h2 : s.current = none) :
    delete_document s filename env = (false, s) := by
  simp [delete_document, h, h2]

theorem delete_document_metadata {s : ServiceState} {filename : String} (env : DelEnv)
    {c : Nat} {i : Nat} (h : s.documents_metadata.lookup filename = some c)
    (h2 : s.current = some i) :
    (delete_document s filename env).2.documents_metadata
      = removeKey s.documents_metadata filename := by
  cases hrb : env.rebuildOk <;> cases hss : env.saveStoreOk <;> cases hsm : env.saveMetaOk <;>
    cases hsv : s.savedStore <;>
      by_cases hk : (keepOthers filename (s.heap i)).isEmpty = true <;>
        simp [delete_document, h, h2, hrb, hss, hsm, hsv, hk]

theorem delete_document_contents_rebuild {s : ServiceState} {filename : String}
    (env : DelEnv) {c : Nat} {i : Nat}
    (h : s.documents_metadata.lookup filename = some c) (h2 : s.current = some i)
    (h3 : (keepOthers filename (s.heap i)).isEmpty = false) (h4 : env.rebuildOk = true) :
    contents (delete_document s filename env).2 = keepOthers filename (s.heap i) := by
  cases hss : env.saveStoreOk <;> cases hsm : env.saveMetaOk <;>
    simp [delete_document, h, h2, h3, h4, hss, hsm, contents, updateHeap]

theorem delete_document_of_rebuildFail {s : ServiceState} {filename : String}
    {env : DelEnv} {c : Nat} {i : Nat}
    (h : s.documents_metadata.lookup filename = some c) (h2 : s.current = some i)
    (h3 : (keepOthers filename (s.heap i)).isEmpty = false) (h4 : env.rebuildOk = false) :
    delete_document s filename env
      = (false, { s with documents_metadata := removeKey s.documents_metadata filename }) := by
  simp [delete_document, h, h2, h3, h4]

theorem delete_document_contents_empty {s : ServiceState} {filename : String}
    (env : DelEnv) {c : Nat} {i : Nat}
    (h : s.documents_metadata.lookup filename = some c) (h2 : s.current = some i)
    (h5 : (keepOthers filename (s.heap i)).isEmpty = true) :
    contents (delete_document s filename env).2 = [] := by
  cases hss : env.saveStoreOk <;> cases hsm : env.saveMetaOk <;> cases hsv : s.savedStore <;>
    simp [delete_document, h, h2, h5, hss, hsm, hsv, contents]

theorem delete_document_heap_stable (s : ServiceState) (filename : String) (env : DelEnv)
    {j : Nat} (hj : j ≠ s.nextId) :
    (delete_document s filename env).2.heap j = s.heap j := by
  cases hl : s.documents_metadata.lookup filename with
  | none => simp [delete_document, hl]
  | some c =>
    cases hc : s.current with
    | none => simp [delete_document, hl, hc]
    | some i =>
      cases hrb : env.rebuildOk <;> cases hss : env.saveStoreOk <;>
        cases hsm : env.saveMetaOk <;> cases hsv : s.savedStore <;>
          by_cases hk : (keepOthers filename (s.heap i)).isEmpty = true <;>
            simp [delete_document, hl, hc, hrb, hss, hsm, hsv, hk, updateHeap, hj]

/-! ### Reachability invariants -/

/-- Whenever a vector store object is current, it holds at least one
fragment (FAISS indexes are only ever built from non-empty batches). -/
def StoreNonempty (s : ServiceState) : Prop :=
  ∀ i, s.current = some i → s.heap i ≠ []

/-- The ledger agrees exactly with the store: every name's recorded count
(0 when the name is unrecorded) equals the number of fragments tagged with
that name. -/
def LedgerExact (s : ServiceState) : Prop :=
  ∀ name : String, (s.documents_metadata.lookup name).getD 0 = countTagged name (contents s)

/-- The consistency invariant of the corpus: unique ledger keys, exact
per-name counts, and the ledger total equal to the store's fragment count. -/
def Consistent (s : ServiceState) : Prop :=
  (s.documents_metadata.map Prod.fst).Nodup ∧ LedgerExact s ∧
    sumLedger s.documents_metadata = (contents s).length

theorem storeNonempty_add (s : ServiceState) (documents : List Doc) (filename : String)
    (env : AddEnv) (h : StoreNonempty s) :
    StoreNonempty (add_documents s documents filename env).state := by
  by_cases hf : (documents.isEmpty || !env.insertOk) = true
  · rw [add_documents_of_fail hf]
    exact h
  · rw [Bool.not_eq_true] at hf
    have hne : documents ≠ [] := by
      intro hnil
      rw [Bool.or_eq_false_iff] at hf
      rw [hnil] at hf
      simp at hf
    have htagne : tagDocs documents filename ≠ [] := by
      simpa [tagDocs] using hne
    intro j hj
    cases hc : s.current with
    | none =>
      cases hss : env.saveStoreOk <;> cases hsm : env.saveMetaOk <;>
        simp_all [add_documents, hf, hc, updateHeap]
    | some i =>
      cases hss : env.saveStoreOk <;> cases hsm : env.saveMetaOk <;>
        simp_all [add_documents, hf, hc, updateHeap]

theorem storeNonempty_del (s : ServiceState) (filename : String) (env : DelEnv)
    (h : StoreNonempty s) :
    StoreNonempty (delete_document s filename env).2 := by
  cases hl : s.documents_metadata.lookup filename with
  | none =>
    rw [delete_document_of_unknown env hl]
    exact h
  | some c =>
    cases hc : s.current with
    | none =>
      rw [delete_document_of_noStore env hl hc]
      exact h
    | some i =>
      intro j hj
      cases hrb : env.rebuildOk <;> cases hss : env.saveStoreOk <;>
        cases hsm : env.saveMetaOk <;> cases hsv : s.savedStore <;>
          by_cases hk : (keepOthers filename (s.heap i)).isEmpty = true <;>
            simp_all [delete_document, hl, hc, updateHeap] <;>
              exact h _ hc

theorem storeNonempty_applyOp (s : ServiceState) (op : Op) (h : StoreNonempty s) :
    StoreNonempty (applyOp s op) := by
  cases op with
  | add docs name env => exact storeNonempty_add s docs name env h
  | del name env => exact storeNonempty_del s name env h

theorem storeNonempty_foldl (ops : List Op) :
    ∀ s : ServiceState, StoreNonempty s → StoreNonempty (ops.foldl applyOp s) := by
  induction ops with
  | nil => exact fun s hs => hs
  | cons op rest ih =>
    intro s hs
    rw [List.foldl_cons]
    exact ih _ (storeNonempty_applyOp s op hs)

theorem storeNonempty_runOps (ops : List Op) : StoreNonempty (runOps ops) := by
  refine storeNonempty_foldl ops initState ?_
  intro i hi
  simp [initState] at hi

theorem consistent_add (s : ServiceState) (documents : List Doc) (filename : String)
    (env : AddEnv) (h : Consistent s) :
    Consistent (add_documents s documents filename env).state := by
  by_cases hf : (documents.isEmpty || !env.insertOk) = true
  · rw [add_documents_of_fail hf]
    exact h
  · rw [Bool.not_eq_true] at hf
    obtain ⟨hmd, hcont⟩ := add_documents_state_core s documents filename env hf
    obtain ⟨hnd, hex, hsum⟩ := h
    refine ⟨?_, ?_, ?_⟩
    · rw [hmd]
      exact keys_recordIngest_nodup documents.length hnd
    · intro name
      rw [hmd, hcont, countTagged_append]
      by_cases hn : name = filename
      · subst hn
        rw [lookup_recordIngest_self, countTagged_tagDocs_self]
        have := hex name
        simp only [Option.getD_some]
        omega
      · rw [lookup_recordIngest_ne _ _ hn, countTagged_tagDocs_ne _ hn]
        have := hex name
        omega
    · rw [hmd, hcont, sum_recordIngest, List.length_append]
      have hlen : (tagDocs documents filename).length = documents.length := by
        simp [tagDocs]
      omega

theorem consistent_del (s : ServiceState) (filename : String) (env : DelEnv)
    (hrb : env.rebuildOk = true) (h : Consistent s) :
    Consistent (delete_document s filename env).2 := by
  obtain ⟨hnd, hex, hsum⟩ := h
  cases hl : s.documents_metadata.lookup filename with
  | none =>
    rw [delete_document_of_unknown env hl]
    exact ⟨hnd, hex, hsum⟩
  | some c =>
    cases hc : s.current with
    | none =>
      rw [delete_document_of_noStore env hl hc]
      exact ⟨hnd, hex, hsum⟩
    | some i =>
      have hcs : contents s = s.heap i := by simp [contents, hc]
      have hcnt : c = countTagged filename (s.heap i) := by
        have := hex filename
        rw [hl, hcs] at this
        simpa using this
      have hmd := delete_document_metadata env hl hc
      by_cases hk : (keepOthers filename (s.heap i)).isEmpty = true
      · have hknil : keepOthers filename (s.heap i) = [] := List.isEmpty_eq_true.mp hk
        have hce := delete_document_contents_empty env hl hc hk
        refine ⟨?_, ?_, ?_⟩
        · rw [hmd]
          exact keys_removeKey_nodup hnd
        · intro name
          rw [hmd, hce]
          by_cases hn : name = filename
          · subst hn
            rw [lookup_removeKey_self hnd]
            simp [countTagged]
          · rw [lookup_removeKey_ne hn]
            have hthis := hex name
            rw [hcs] at hthis
            rw [hthis, countTagged_of_keepOthers_nil hknil hn]
            simp [countTagged]
        · rw [hmd, hce]
          have h1 := sum_removeKey hl
          have h2 : countTagged filename (s.heap i) = (s.heap i).length :=
            countTagged_eq_length_of_keepOthers_nil hknil
          rw [hcs] at hsum
          simp only [List.length_nil]
          omega
      · have hkf : (keepOthers filename (s.heap i)).isEmpty = false :=
          Bool.not_eq_true _ ▸ hk
        have hcr := delete_document_contents_rebuild env hl hc hkf hrb
        refine ⟨?_, ?_, ?_⟩
        · rw [hmd]
          exact keys_removeKey_nodup hnd
        · intro name
          rw [hmd, hcr]
          by_cases hn : name = filename
          · subst hn
            rw [lookup_removeKey_self hnd, countTagged_keepOthers_self]
            rfl
          · rw [lookup_removeKey_ne hn, countTagged_keepOthers_ne _ hn]
            have := hex name
            rw [hcs] at this
            exact this
        · rw [hmd, hcr]
          have h1 := sum_removeKey hl
          have h2 := length_keepOthers filename (s.heap i)
          rw [hcs] at hsum
          omega

theorem consistent_applyOp (s : ServiceState) (op : Op) (hop : rebuildsOk op = true)
    (h : Consistent s) : Consistent (applyOp s op) := by
  cases op with
  | add docs name env => exact consistent_add s docs name env h
  | del name env => exact consistent_del s name env hop h

theorem consistent_foldl (ops : List Op) :
    ∀ s : ServiceState, Consistent s → (ops.all rebuildsOk = true) →
      Consistent (ops.foldl applyOp s) := by
  induction ops with
  | nil => exact fun s hs _ => hs
  | cons op rest ih =>
    intro s hs hall
    rw [List.all_cons, Bool.and_eq_true] at hall
    rw [List.foldl_cons]
    exact ih _ (consistent_applyOp s op hall.1 hs) hall.2

theorem consistent_initState : Consistent initState := by
  refine ⟨by simp [initState], ?_, by simp [initState, sumLedger, contents]⟩
  intro name
  simp [initState, contents, countTagged, List.lookup]

theorem consistent_runOps {ops : List Op} (h : noRebuildFailure ops = true) :
    Consistent (runOps ops) :=
  consistent_foldl ops initState consistent_initState h

/-! ### Concrete fixtures used by witnesses and counterexamples -/

/-- Environment in which every external step of an ingest succeeds. -/
def allOkAdd : AddEnv := { insertOk := true, saveStoreOk := true, saveMetaOk := true }

/-- Environment in which every external step of a delete succeeds. -/
def allOkDel : DelEnv := { rebuildOk := true, saveStoreOk := true, saveMetaOk := true }

/-- Environment in which the delete's index rebuild raises. -/
def rebuildFailDel : DelEnv := { rebuildOk := false, saveStoreOk := true, saveMetaOk := true }

/-- Environment in which every external step of an ingest raises. -/
def failAdd : AddEnv := { insertOk := false, saveStoreOk := false, saveMetaOk := false }

/-- A fragment with no loader metadata. -/
def docAlpha : Doc := { page_content := "alpha", metadata := [] }

/-- A second fragment with no loader metadata. -/
def docBeta : Doc := { page_content := "beta", metadata := [] }

/-- A fragment carrying the loader's source path and a page number. -/
def docWithSource : Doc :=
  { page_content := "hello",
    metadata := [("source", MetaVal.str "data/documents/a.txt"), ("page", MetaVal.int 1)] }

/-- One successful one-fragment ingest. -/
def opsSingle : List Op := [Op.add [docAlpha] "a.txt" allOkAdd]

/-- Two successful one-fragment ingests followed by a delete whose index
rebuild raises. -/
def opsRebuildFail : List Op :=
  [Op.add [docAlpha] "a.txt" allOkAdd, Op.add [docBeta] "b.txt" allOkAdd,
   Op.del "a.txt" rebuildFailDel]

/-- Two successful one-fragment ingests. -/
def twoDocState : ServiceState :=
  runOps [Op.add [docAlpha] "a.txt" allOkAdd, Op.add [docBeta] "b.txt" allOkAdd]

/-- The state of `twoDocState` after a fully successful delete of a.txt. -/
def twoDocStateAfterDel : ServiceState :=
  (delete_document twoDocState "a.txt" allOkDel).2

/-- A ranking function used to instantiate the opaque FAISS ranking. -/
def takeRank : List Doc → String → Nat → List Doc := fun docs _ k => docs.take k

/-- A ledger recording a.txt while no store object exists: the situation of
a persisted metadata file without a persisted index. -/
def ledgerOnlyState : ServiceState :=
  { initState with documents_metadata := [("a.txt", 1)] }

/-! ### The claims -/

/-- C1, counterexample: the trace `opsRebuildFail` (two ingests, then a
delete_document whose index rebuild raises and which reports false) reaches
a corpus state whose ledger total is 1 while get_document_count is 2, so
the claimed equality between the sum of recorded counts and the store's
fragment count fails on a reachable state. -/
theorem C1_counterexample :
    sumLedger (runOps opsRebuildFail).documents_metadata = 1 ∧
    get_document_count (runOps opsRebuildFail) = 2 := by
  constructor <;> decide

/-- C1 (amended): for every corpus state reachable from the empty corpus by
add_documents and delete_document calls in which no delete's index rebuild
raised, every name recorded in the ledger has its recorded chunk count equal
to the number of store fragments whose filename tag is that name, and the
sum of all recorded counts equals get_document_count. -/
theorem C1_ledger_invariant (ops : List Op) (h : noRebuildFailure ops = true) :
    (∀ name c, (runOps ops).documents_metadata.lookup name = some c →
        c = countTagged name (contents (runOps ops))) ∧
    sumLedger (runOps ops).documents_metadata = get_document_count (runOps ops) := by
  obtain ⟨-, hex, hsum⟩ := consistent_runOps h
  refine ⟨?_, hsum⟩
  intro name c hc
  have := hex name
  rw [hc] at this
  simpa using this

/-- Witness for C1 on a concrete successful trace. -/
theorem C1_ledger_invariant_witness :
    (∀ name c, (runOps opsSingle).documents_metadata.lookup name = some c →
        c = countTagged name (contents (runOps opsSingle))) ∧
    sumLedger (runOps opsSingle).documents_metadata = get_document_count (runOps opsSingle) :=
  C1_ledger_invariant opsSingle (by decide)

/-- C2, counterexample: a delete_document call that fails during the index
rebuild returns false, yet the name's ledger record has already been
removed, so the corpus state is not left unchanged by the failed call. -/
theorem C2_counterexample :
    (delete_document twoDocState "a.txt" rebuildFailDel).1 = false ∧
    twoDocState.documents_metadata.lookup "a.txt" = some 1 ∧
    (delete_document twoDocState "a.txt" rebuildFailDel).2.documents_metadata.lookup
        "a.txt" = none := by
  refine ⟨?_, ?_, ?_⟩ <;> decide

/-- C2 (amended): when delete_document reports failure the persisted store
and persisted ledger are unchanged, and when the failure comes from the
unknown-name or absent-store check the in-memory state is returned exactly
as it was; when a later step fails, however, the name's in-memory ledger
record has already been removed. -/
theorem C2_delete_failure (s : ServiceState) (filename : String) (env : DelEnv)
    (h : (delete_document s filename env).1 = false) :
    (delete_document s filename env).2.savedStore = s.savedStore ∧
    (delete_document s filename env).2.savedMetadata = s.savedMetadata ∧
    ((s.documents_metadata.lookup filename = none ∨ s.current = none) →
      (delete_document s filename env).2 = s) ∧
    (∀ c i, s.documents_metadata.lookup filename = some c → s.current = some i →
      (delete_document s filename env).2.documents_metadata
        = removeKey s.documents_metadata filename) := by
  cases hl : s.documents_metadata.lookup filename with
  | none =>
    rw [delete_document_of_unknown env hl]
    exact ⟨rfl, rfl, fun _ => rfl, fun c i hc _ => by cases hc⟩
  | some c0 =>
    cases hc : s.current with
    | none =>
      rw [delete_document_of_noStore env hl hc]
      exact ⟨rfl, rfl, fun _ => rfl, fun c i _ hi => by cases hi⟩
    | some i0 =>
      refine ⟨?_, ?_, ?_, fun c i _ _ => delete_document_metadata env hl hc⟩
      · cases hrb : env.rebuildOk <;> cases hss : env.saveStoreOk <;>
          cases hsm : env.saveMetaOk <;> cases hsv : s.savedStore <;>
            by_cases hk : (keepOthers filename (s.heap i0)).isEmpty = true <;>
              simp_all [delete_document, hl, hc]
      · cases hrb : env.rebuildOk <;> cases hss : env.saveStoreOk <;>
          cases hsm : env.saveMetaOk <;> cases hsv : s.savedStore <;>
            by_cases hk : (keepOthers filename (s.heap i0)).isEmpty = true <;>
              simp_all [delete_document, hl, hc]
      · intro hdisj
        rcases hdisj with h1 | h2
        · cases h1
        · cases h2

/-- Witness for C2 at a delete of an unknown name on the empty corpus. -/
theorem C2_delete_failure_witness :
    (delete_document initState "a.txt" allOkDel).2.savedStore = initState.savedStore ∧
    (delete_document initState "a.txt" allOkDel).2.savedMetadata = initState.savedMetadata ∧
    ((initState.documents_metadata.lookup "a.txt" = none ∨ initState.current = none) →
      (delete_document initState "a.txt" allOkDel).2 = initState) ∧
    (∀ c i, initState.documents_metadata.lookup "a.txt" = some c →
      initState.current = some i →
      (delete_document initState "a.txt" allOkDel).2.documents_metadata
        = removeKey initState.documents_metadata "a.txt") :=
  C2_delete_failure initState "a.txt" allOkDel (by decide)

/-- C3, counterexample: a retriever created before a fully successful
delete_document still ranks the store object it was created from, so its
result afterwards differs from the ranking of the store contents at
invocation time — the post-delete contents are not reflected. -/
theorem C3_counterexample :
    get_retriever twoDocState 2 = some { storeId := 0, k := 2 } ∧
    Retriever.invoke takeRank { storeId := 0, k := 2 } twoDocStateAfterDel "q"
      ≠ takeRank (contents twoDocStateAfterDel) "q" 2 := by
  constructor <;> decide

/-- C3 (amended): get_retriever returns none exactly when the store is not
ready; an invoked retriever ranks the contents of the store object it was
created from, and since delete_document installs a fresh store object, a
retriever created beforehand still returns results computed from its
creation-time store contents after the delete. -/
theorem C3_retriever (s : ServiceState) (k : Nat) :
    (get_retriever s k = none ↔ is_ready s = false) ∧
    (∀ i, s.current = some i → i ≠ s.nextId →
      ∀ (filename : String) (env : DelEnv) (rank : List Doc → String → Nat → List Doc)
        (query : String) (r : Retriever), get_retriever s k = some r →
        Retriever.invoke rank r (delete_document s filename env).2 query
          = rank (s.heap i) query k) := by
  constructor
  · cases hc : s.current <;> simp [get_retriever, is_ready, hc]
  · intro i hc hne filename env rank query r hr
    rw [get_retriever, hc] at hr
    simp only [Option.some.injEq] at hr
    subst hr
    rw [Retriever.invoke, delete_document_heap_stable s filename env hne]

/-- Witness for C3 at the concrete two-document state. -/
theorem C3_retriever_witness :
    (get_retriever twoDocState 2 = none ↔ is_ready twoDocState = false) ∧
    Retriever.invoke takeRank { storeId := 0, k := 2 } twoDocStateAfterDel "q"
      = takeRank (twoDocState.heap 0) "q" 2 :=
  ⟨(C3_retriever twoDocState 2).1,
   (C3_retriever twoDocState 2).2 0 (by decide) (by decide) "a.txt" allOkDel takeRank "q"
     { storeId := 0, k := 2 } (by decide)⟩

/-- C4, counterexample: in a state whose ledger records a.txt with count 1
while the store object is absent, delete_document("a.txt") fails, a.txt is
still listed afterwards, and the total chunk count does not decrease by the
recorded count. -/
theorem C4_counterexample :
    (list_documents (delete_document ledgerOnlyState "a.txt" allOkDel).2).lookup "a.txt"
        = some 1 ∧
    get_document_count (delete_document ledgerOnlyState "a.txt" allOkDel).2
        = get_document_count ledgerOnlyState := by
  constructor <;> decide

/-- C4 (amended): when the ledger keys are unique, a store object is
present whenever the name is recorded, the name's recorded count equals its
tagged-fragment count, and the index rebuild succeeds, then after
delete_document(name) the name is no longer listed and the total chunk
count has decreased by exactly the previously recorded count. -/
theorem C4_delete_effect (s : ServiceState) (filename : String) (env : DelEnv)
    (hnd : (s.documents_metadata.map Prod.fst).Nodup)
    (hstore : s.current = none → s.documents_metadata.lookup filename = none)
    (hex : (s.documents_metadata.lookup filename).getD 0
        = countTagged filename (contents s))
    (hrb : env.rebuildOk = true) :
    (list_documents (delete_document s filename env).2).lookup filename = none ∧
    get_document_count (delete_document s filename env).2
        + (s.documents_metadata.lookup filename).getD 0
      = get_document_count s := by
  cases hl : s.documents_metadata.lookup filename with
  | none =>
    rw [delete_document_of_unknown env hl]
    exact ⟨hl, by simp⟩
  | some c =>
    cases hc : s.current with
    | none => exact absurd (hstore hc) (by simp [hl])
    | some i =>
      have hcs : contents s = s.heap i := by simp [contents, hc]
      have hmd := delete_document_metadata env hl hc
      have hlook :
          (list_documents (delete_document s filename env).2).lookup filename = none := by
        show ((delete_document s filename env).2).documents_metadata.lookup filename = none
        rw [hmd]
        exact lookup_removeKey_self hnd
      refine ⟨hlook, ?_⟩
      rw [hl, hcs] at hex
      simp only [Option.getD_some] at hex
      simp only [Option.getD_some]
      by_cases hk : (keepOthers filename (s.heap i)).isEmpty = true
      · have hknil := List.isEmpty_eq_true.mp hk
        have hce := delete_document_contents_empty env hl hc hk
        have h2 := countTagged_eq_length_of_keepOthers_nil hknil
        rw [get_document_count, hce, get_document_count, hcs]
        simp only [List.length_nil]
        omega
      · rw [Bool.not_eq_true] at hk
        have hcr := delete_document_contents_rebuild env hl hc hk hrb
        have h2 := length_keepOthers filename (s.heap i)
        rw [get_document_count, hcr, get_document_count, hcs]
        omega

/-- Witness for C4 at the concrete one-document state. -/
theorem C4_delete_effect_witness :
    (list_documents (delete_document (runOps opsSingle) "a.txt" allOkDel).2).lookup "a.txt"
        = none ∧
    get_document_count (delete_document (runOps opsSingle) "a.txt" allOkDel).2
        + ((runOps opsSingle).documents_metadata.lookup "a.txt").getD 0
      = get_document_count (runOps opsSingle) :=
  C4_delete_effect (runOps opsSingle) "a.txt" allOkDel (by decide) (by decide) (by decide)
    (by decide)

/-- C5: a successful add_documents of n fragments returns n and adds n to
the total chunk count; under a name not yet recorded it creates a record
with count n and raises the document count by one, and under a recorded
name it accumulates n onto that record and leaves the document count
unchanged. -/
theorem C5_add_documents (s : ServiceState) (documents : List Doc) (filename : String)
    (env : AddEnv) (hne : documents ≠ []) (hins : env.insertOk = true)
    (hsave : env.saveStoreOk = true) :
    (add_documents s documents filename env).result = Except.ok documents.length ∧
    (get_stats (add_documents s documents filename env).state).total_chunks
      = (get_stats s).total_chunks + documents.length ∧
    (s.documents_metadata.lookup filename = none →
      (get_stats (add_documents s documents filename env).state).total_documents
          = (get_stats s).total_documents + 1 ∧
      (add_documents s documents filename env).state.documents_metadata.lookup filename
          = some documents.length) ∧
    (∀ c, s.documents_metadata.lookup filename = some c →
      (get_stats (add_documents s documents filename env).state).total_documents
          = (get_stats s).total_documents ∧
      (add_documents s documents filename env).state.documents_metadata.lookup filename
          = some (c + documents.length)) := by
  have hcond : (documents.isEmpty || !env.insertOk) = false := by
    simp [hins, List.isEmpty_iff, hne]
  obtain ⟨hmd, hcont⟩ :=
    add_documents_state_core s documents filename env hcond
  refine ⟨add_documents_result_ok hcond hsave, ?_, ?_, ?_⟩
  · simp [get_stats, get_document_count, hcont, tagDocs]
  · intro habs
    constructor
    · simp [get_stats, hmd, length_recordIngest_absent _ habs]
    · rw [hmd, lookup_recordIngest_self, habs]
      simp
  · intro c hpres
    constructor
    · simp [get_stats, hmd, length_recordIngest_present _ (by rw [hpres]; rfl)]
    · rw [hmd, lookup_recordIngest_self, hpres]
      simp

/-- Witness for C5 ingesting one fragment into the empty corpus. -/
theorem C5_add_documents_witness :
    (add_documents initState [docAlpha] "a.txt" allOkAdd).result = Except.ok 1 ∧
    (get_stats (add_documents initState [docAlpha] "a.txt" allOkAdd).state).total_chunks
      = (get_stats initState).total_chunks + 1 ∧
    (initState.documents_metadata.lookup "a.txt" = none →
      (get_stats (add_documents initState [docAlpha] "a.txt" allOkAdd).state).total_documents
          = (get_stats initState).total_documents + 1 ∧
      (add_documents initState [docAlpha] "a.txt" allOkAdd).state.documents_metadata.lookup
          "a.txt" = some 1) ∧
    (∀ c, initState.documents_metadata.lookup "a.txt" = some c →
      (get_stats (add_documents initState [docAlpha] "a.txt" allOkAdd).state).total_documents
          = (get_stats initState).total_documents ∧
      (add_documents initState [docAlpha] "a.txt" allOkAdd).state.documents_metadata.lookup
          "a.txt" = some (c + 1)) :=
  C5_add_documents initState [docAlpha] "a.txt" allOkAdd (by decide) (by decide) (by decide)

/-- C6: when the vector store is not ready, query returns exactly the
sentinel answer, an empty source list and the question echoed unchanged,
and makes no generation call. -/
theorem C6_query_not_ready (rank : List Doc → String → Nat → List Doc)
    (llm : String → List Doc → String) (s : ServiceState) (question : String) (k : Nat)
    (h : is_ready s = false) :
    rag_query rank llm s question k
      = ({ answer := "No documents have been uploaded yet. Please upload documents first.",
           sources := [], question := question }, false) := by
  simp [rag_query, h, noDocsAnswer]

/-- Witness for C6 on the empty corpus. -/
theorem C6_query_not_ready_witness :
    rag_query takeRank (fun _ _ => "generated") initState "What is this?" 4
      = ({ answer := "No documents have been uploaded yet. Please upload documents first.",
           sources := [], question := "What is this?" }, false) :=
  C6_query_not_ready takeRank (fun _ _ => "generated") initState "What is this?" 4 (by decide)

/-- C7, counterexample: a fragment ingested under the name a.txt carries the
filename tag set by add_documents but no loader source key, so its formatted
attribution's source is the string Unknown, not the document name it was
ingested under. -/
theorem C7_counterexample :
    (format_sources (add_documents initState [docAlpha] "a.txt" allOkAdd).docsAfter).map
        SourceInfo.source = [MetaVal.str "Unknown"] ∧
    MetaVal.str "Unknown" ≠ MetaVal.str "a.txt" := by
  constructor <;> decide

/-- C7 (amended): each formatted attribution's content is the fragment's
full text when the text has at most 500 characters and otherwise its first
500 characters followed by an ellipsis; its source is the fragment's source
metadata value when present and Unknown otherwise (not the ingest-time
filename tag); its page field is present exactly when the fragment carries
page metadata. -/
theorem C7_format_source (d : Doc) :
    (d.page_content.length ≤ 500 → (format_source d).content = d.page_content) ∧
    (500 < d.page_content.length →
      (format_source d).content = d.page_content.take 500 ++ "...") ∧
    (∀ v, d.getMeta "source" = some v → (format_source d).source = v) ∧
    (d.getMeta "source" = none → (format_source d).source = MetaVal.str "Unknown") ∧
    ((format_source d).page = d.getMeta "page") := by
  refine ⟨?_, ?_, ?_, ?_, rfl⟩
  · intro h
    simp [format_source, Nat.not_lt.mpr h]
  · intro h
    simp [format_source, h]
  · intro v hv
    simp [format_source, hv]
  · intro hv
    simp [format_source, hv]

/-- Witness for C7 on a fragment carrying a loader source path and a page. -/
theorem C7_format_source_witness :
    (format_source docWithSource).content = docWithSource.page_content ∧
    (format_source docWithSource).source = MetaVal.str "data/documents/a.txt" ∧
    (format_source docWithSource).page = docWithSource.getMeta "page" :=
  ⟨(C7_format_source docWithSource).1 (by decide),
   (C7_format_source docWithSource).2.2.1 (MetaVal.str "data/documents/a.txt") (by decide),
   (C7_format_source docWithSource).2.2.2.2⟩

/-- C8: at every corpus state reachable from the empty corpus, if the store
holds no fragments then is_ready is false and similarity_search returns the
empty list for every ranking, query and k. -/
theorem C8_empty_store (ops : List Op) (h : contents (runOps ops) = []) :
    is_ready (runOps ops) = false ∧
    ∀ (rank : List Doc → String → Nat → List Doc) (query : String) (k : Nat),
      similarity_search rank (runOps ops) query k = [] := by
  have hnon := storeNonempty_runOps ops
  have hcur : (runOps ops).current = none := by
    cases hc : (runOps ops).current with
    | none => rfl
    | some i =>
      exfalso
      apply hnon i hc
      simpa [contents, hc] using h
  exact ⟨by simp [is_ready, hcur], fun rank query k => by simp [similarity_search, hcur]⟩

/-- Witness for C8 on a trace that ingests one document and deletes it. -/
theorem C8_empty_store_witness :
    is_ready (runOps [Op.add [docAlpha] "a.txt" allOkAdd, Op.del "a.txt" allOkDel]) = false ∧
    ∀ (rank : List Doc → String → Nat → List Doc) (query : String) (k : Nat),
      similarity_search rank
        (runOps [Op.add [docAlpha] "a.txt" allOkAdd, Op.del "a.txt" allOkDel]) query k = [] :=
  C8_empty_store [Op.add [docAlpha] "a.txt" allOkAdd, Op.del "a.txt" allOkDel] (by decide)

/-- C9: when a name is recorded in the ledger while the store object is
absent, delete_document returns false and leaves the state untouched, so
the stale record is still listed afterwards. -/
theorem C9_stale_ledger (s : ServiceState) (filename : String) (env : DelEnv) (c : Nat)
    (h : s.documents_metadata.lookup filename = some c) (h2 : s.current = none) :
    delete_document s filename env = (false, s) ∧
    (list_documents (delete_document s filename env).2).lookup filename = some c := by
  have hd := delete_document_of_noStore env h h2
  exact ⟨hd, by rw [hd]; exact h⟩

/-- Witness for C9 at the concrete ledger-only state. -/
theorem C9_stale_ledger_witness :
    delete_document ledgerOnlyState "a.txt" allOkDel = (false, ledgerOnlyState) ∧
    (list_documents (delete_document ledgerOnlyState "a.txt" allOkDel).2).lookup "a.txt"
      = some 1 :=
  C9_stale_ledger ledgerOnlyState "a.txt" allOkDel 1 (by decide) (by decide)

/-- C10: add_documents sets (creating or overwriting) the filename metadata
key on every document the caller passed in, leaving every other metadata
key untouched, and this mutation of the caller's objects happens even when
the insert and the saves all fail. -/
theorem C10_add_documents_mutates (s : ServiceState) (documents : List Doc)
    (filename : String) (env : AddEnv) :
    (add_documents s documents filename env).docsAfter
        = documents.map (fun d => d.setMeta "filename" (MetaVal.str filename)) ∧
    (∀ d ∈ (add_documents s documents filename env).docsAfter,
      d.getMeta "filename" = some (MetaVal.str filename)) ∧
    (∀ d ∈ documents, ∀ k, k ≠ "filename" →
      (d.setMeta "filename" (MetaVal.str filename)).getMeta k = d.getMeta k) := by
  refine ⟨add_documents_docsAfter s documents filename env, ?_, ?_⟩
  · intro d hd
    rw [add_documents_docsAfter] at hd
    rcases List.mem_map.mp hd with ⟨d0, _, rfl⟩
    exact Doc.getMeta_setMeta_self d0 _ _
  · intro d _ k hk
    exact Doc.getMeta_setMeta_ne d _ hk

/-- Witness for C10 on an ingest in which every external step fails. -/
theorem C10_add_documents_mutates_witness :
    (add_documents initState [docWithSource] "a.txt" failAdd).docsAfter
        = [docWithSource.setMeta "filename" (MetaVal.str "a.txt")] ∧
    (docWithSource.setMeta "filename" (MetaVal.str "a.txt")).getMeta "filename"
        = some (MetaVal.str "a.txt") ∧
    (docWithSource.setMeta "filename" (MetaVal.str "a.txt")).getMeta "source"
        = docWithSource.getMeta "source" :=
  ⟨(C10_add_documents_mutates initState [docWithSource] "a.txt" failAdd).1,
   (C10_add_documents_mutates initState [docWithSource] "a.txt" failAdd).2.1
     (docWithSource.setMeta "filename" (MetaVal.str "a.txt")) (by decide),
   (C10_add_documents_mutates initState [docWithSource] "a.txt" failAdd).2.2
     docWithSource (by decide) "source" (by decide)⟩
